import Mathlib

/-!
# stock-picker: the window filter, the averager and the request handler

A shallow embedding of `main.go` of imdhruva/stock-picker.

* Instants (`time.Time`) are integers: nanoseconds since the Unix epoch, in UTC.
  The years a date key can name (0000..9999), the current time and the windows
  the handler can build are far inside the range of Go's `time.Time`, so no
  wrap-around is modelled for instants.
* A Go map is a list of key/value pairs with distinct keys; the order of the
  list is the order in which `range` visits the entries, which Go leaves
  unspecified.  Statements about "any visiting order" quantify over permutations.
* `strconv.ParseFloat` is a parameter `pf : String → Option V` of the filter:
  `none` stands for a non-nil error.  The filter never computes with the value.
* `float64` is modelled as IEEE 754 binary64 with round to nearest even
  (`Float64`); the averager and the handler take their arithmetic as a
  parameter `A`, which is `float64Arith` for the code and `exactArith` for the
  statements made over exact arithmetic.
-/

namespace StockPicker

/-! ## Data model -/

/-- StockDataPoint holds the closing value for a stock (JSON field "4. close"). -/
structure StockDataPoint where
  Close : String
deriving DecidableEq, Repr

/-- A Go `map[string]V`, as the list of its entries. -/
abbrev GoMap (V : Type) := List (String × V)

/-- The map read `m[k]` (with the comma-ok result as an `Option`). -/
def GoMap.get? {V : Type} (m : GoMap V) (k : String) : Option V :=
  match m with
  | [] => none
  | (k', v) :: rest => if k' = k then some v else GoMap.get? rest k

/-- The map write `m[k] = v`: an existing entry for `k` is replaced. -/
def GoMap.set {V : Type} (m : GoMap V) (k : String) (v : V) : GoMap V :=
  match m with
  | [] => [(k, v)]
  | (k', v') :: rest => if k' = k then (k, v) :: rest else (k', v') :: GoMap.set rest k v

/-- The keys of a map, in visiting order. -/
def GoMap.keys {V : Type} (m : GoMap V) : List String := m.map Prod.fst

/-! ## The part of Go's `time` package the filter uses -/

/-- Nanoseconds in an hour (`time.Hour`). -/
def nsPerHour : Int := 3600 * 1000000000

/-- Nanoseconds in a day of 24 hours. -/
def nsPerDay : Int := 24 * nsPerHour

/-- ASCII decimal digit test, as `time.isDigit`. -/
def isDigit (c : Char) : Bool := decide (48 ≤ c.toNat) && decide (c.toNat ≤ 57)

/-- Value of an ASCII decimal digit. -/
def digitVal (c : Char) : Nat := c.toNat - 48

/-- Gregorian leap year test, as `time.isLeap`. -/
def isLeap (year : Nat) : Bool :=
  year % 4 == 0 && (year % 100 != 0 || year % 400 == 0)

/-- Days of the year before the first of the month (non-leap), as `time.daysBefore`. -/
def daysBefore (month : Nat) : Nat :=
  match month with
  | 1 => 0
  | 2 => 31
  | 3 => 59
  | 4 => 90
  | 5 => 120
  | 6 => 151
  | 7 => 181
  | 8 => 212
  | 9 => 243
  | 10 => 273
  | 11 => 304
  | 12 => 334
  | _ => 365

/-- Number of days of a month, as `time.daysIn`. -/
def daysIn (month year : Nat) : Nat :=
  if month = 2 ∧ isLeap year then 29 else daysBefore (month + 1) - daysBefore month

/-- Days from 0000-01-01 to the first of January of `year` (proleptic Gregorian). -/
def daysBeforeYear (year : Nat) : Nat :=
  365 * year + (year + 3) / 4 - (year + 99) / 100 + (year + 399) / 400

/-- Day number of a calendar date counted from 1970-01-01, the day `time.Date`
    places at Unix second `86400 * unixDay`. -/
def unixDay (year month day : Nat) : Int :=
  ((daysBeforeYear year + daysBefore month
      + (if isLeap year ∧ 3 ≤ month then 1 else 0) + (day - 1) : Nat) : Int) - 719528

/-- The calendar day `time.Parse("2006-01-02", s)` reads from the characters of `s`:
    exactly four year digits, `-`, two month digits, `-`, two day digits, nothing
    before or after, the month in 1..12 and the day in 1..daysIn.  `none` is a
    non-nil error. -/
def parseDayChars (s : List Char) : Option Int :=
  match s with
  | [y1, y2, y3, y4, s1, m1, m2, s2, d1, d2] =>
    if isDigit y1 && isDigit y2 && isDigit y3 && isDigit y4
        && isDigit m1 && isDigit m2 && isDigit d1 && isDigit d2
        && s1 == '-' && s2 == '-' then
      let year := digitVal y1 * 1000 + digitVal y2 * 100 + digitVal y3 * 10 + digitVal y4
      let month := digitVal m1 * 10 + digitVal m2
      let day := digitVal d1 * 10 + digitVal d2
      if month < 1 ∨ 12 < month then none
      else if day < 1 ∨ daysIn month year < day then none
      else some (unixDay year month day)
    else none
  | _ => none

/-- The calendar day (days since 1970-01-01) of a date key, if it parses. -/
def parseDay (date : String) : Option Int := parseDayChars date.data

/-- `time.Parse("2006-01-02", date)`: midnight UTC of the day, as an instant. -/
def timeParse (date : String) : Option Int :=
  match parseDay date with
  | none => none
  | some d => some (d * nsPerDay)

/-! ## parseNDays -/

/-- The error text `parseNDays` builds: the verb `%T` prints the Go type of
    `stockData.Close`, which is always `string`. -/
def errInvalidClose : String :=
  "invalid value for \x27StockDataPoint.Time Series (Daily).4. close\x27. Expected: string, got string"

/-- The `for ... range timeSeries` loop of `parseNDays`, over the entries still
    to visit; `cutoff` is `now.Add(nDays)` and `days` the map built so far. -/
def parseNDaysLoop {V : Type} (pf : String → Option V) (cutoff : Int)
    (entries : List (String × StockDataPoint)) (days : GoMap V) : GoMap V × Option String :=
  match entries with
  | [] => (days, none)
  | (date, stockData) :: rest =>
    match timeParse date with
    | none => parseNDaysLoop pf cutoff rest days
    | some stockDate =>
      if ¬ (stockDate < cutoff) then
        match pf stockData.Close with
        | none => (days, some errInvalidClose)
        | some closeF64 => parseNDaysLoop pf cutoff rest (days.set date closeF64)
      else parseNDaysLoop pf cutoff rest days

/-- `parseNDays(nDays, timeSeries)` with `time.Now()` made the parameter `now`. -/
def parseNDays {V : Type} (pf : String → Option V) (now : Int) (nDays : Int)
    (timeSeries : List (String × StockDataPoint)) : GoMap V × Option String :=
  parseNDaysLoop pf (now + nDays) timeSeries []

/-! ## IEEE 754 binary64 (`float64`) -/

/-- A `float64` value: a finite number other than minus zero (`finite 0` is +0),
    minus zero, an infinity, or a NaN. -/
inductive Float64 where
  | finite (q : ℚ)
  | negZero
  | inf (neg : Bool)
  | nan
deriving DecidableEq

/-- The number of binary digits of `n`, counted with at most `fuel` halvings. -/
def bitLengthAux (fuel n : Nat) : Nat :=
  match fuel with
  | 0 => 0
  | fuel + 1 => if n = 0 then 0 else bitLengthAux fuel (n / 2) + 1

/-- The number of binary digits of `n` (0 for 0): `2 ^ (bitLength n - 1) ≤ n <
    2 ^ bitLength n` for positive `n`. -/
def bitLength (n : Nat) : Nat := bitLengthAux n n

/-- Whether a natural number is `m * 2 ^ k` with `m < 2 ^ 53`: it fits 53
    significant bits. -/
def fits53 (n : Nat) : Bool :=
  decide (bitLength n ≤ 53) || decide (n % 2 ^ (bitLength n - 53) = 0)

/-- Whether a rational is a finite `float64` value: `±m * 2 ^ e` with `m < 2 ^ 53`
    and `-1074 ≤ e ≤ 971`. -/
def isFloat64 (q : ℚ) : Bool :=
  fits53 q.num.natAbs && decide (q.den ∣ 2 ^ 1074)
    && decide (q.num.natAbs < 2 ^ 1024 * q.den)

/-- The exponent `⌊log₂ (a / b)⌋` of a positive fraction. -/
def floorLog2 (a b : Nat) : Int :=
  let t : Int := (bitLength a : Int) - (bitLength b : Int)
  if (if 0 ≤ t then decide (b * 2 ^ t.toNat ≤ a) else decide (b ≤ a * 2 ^ (-t).toNat))
  then t else t - 1

/-- The signed zero. -/
def Float64.zero (neg : Bool) : Float64 := if neg then .negZero else .finite 0

/-- Round to nearest, ties to even, of the positive fraction `a / b`, with the
    sign `neg`: the significand has 53 bits, the exponent of the last bit is at
    least -1074, and a result of `2 ^ 1024` or more is an infinity. -/
def roundPos (neg : Bool) (a b : Nat) : Float64 :=
  let e : Int := max (floorLog2 a b - 52) (-1074)
  let num : Nat := if 0 ≤ e then a else a * 2 ^ (-e).toNat
  let den : Nat := if 0 ≤ e then b * 2 ^ e.toNat else b
  let m0 : Nat := num / den
  let r : Nat := num % den
  let m : Nat := if 2 * r < den then m0 else if den < 2 * r then m0 + 1
    else if m0 % 2 = 0 then m0 else m0 + 1
  let v : ℚ := (m : ℚ) * (if 0 ≤ e then ((2 ^ e.toNat : Nat) : ℚ) else 1 / ((2 ^ (-e).toNat : Nat) : ℚ))
  if m = 0 then Float64.zero neg
  else if (2 : ℚ) ^ 1024 ≤ v then .inf neg
  else .finite (if neg then -v else v)

/-- The `float64` nearest to a rational (ties to even); a `float64` value is
    its own nearest, and zero rounds to +0. -/
def roundQ (q : ℚ) : Float64 :=
  if isFloat64 q then .finite q
  else roundPos (decide (q < 0)) q.num.natAbs q.den

/-- Whether the sign bit is set. -/
def Float64.signBit (x : Float64) : Bool :=
  match x with
  | .finite q => decide (q < 0)
  | .negZero => true
  | .inf neg => neg
  | .nan => false

/-- The `float64` sum `x + y`: an exact sum of zero is +0, except that
    `-0 + -0` is `-0`. -/
def Float64.add (x y : Float64) : Float64 :=
  match x, y with
  | .nan, _ => .nan
  | _, .nan => .nan
  | .inf a, .inf b => if a = b then .inf a else .nan
  | .inf a, _ => .inf a
  | _, .inf b => .inf b
  | .negZero, .negZero => .negZero
  | .negZero, .finite b => .finite b
  | .finite a, .negZero => .finite a
  | .finite a, .finite b => roundQ (a + b)

/-- The `float64` quotient `x / y`; `neg` is the sign of the result, the
    exclusive or of the signs of the operands. -/
def Float64.div (x y : Float64) : Float64 :=
  let neg := xor x.signBit y.signBit
  match x, y with
  | .nan, _ => .nan
  | _, .nan => .nan
  | .inf _, .inf _ => .nan
  | .inf _, _ => .inf neg
  | _, .inf _ => Float64.zero neg
  | .finite a, .finite b =>
    if b = 0 then (if a = 0 then .nan else .inf neg)
    else if a = 0 then Float64.zero neg
    else roundQ (a / b)
  | .finite a, .negZero => if a = 0 then .nan else .inf neg
  | .negZero, .finite b => if b = 0 then .nan else Float64.zero neg
  | .negZero, .negZero => .nan

/-- The conversion `float64(n)` of a non-negative `int`. -/
def Float64.ofCount (n : Nat) : Float64 := roundQ (n : ℚ)

/-! ## calculateAverageClosingPrice -/

/-- The arithmetic `calculateAverageClosingPrice` uses on its values: the
    constant `0.0`, `+`, `/` and the conversion `float64(count)`. -/
structure Arith (F : Type) where
  zero : F
  add : F → F → F
  div : F → F → F
  ofCount : Nat → F

/-- The arithmetic of the code: IEEE 754 binary64, round to nearest even. -/
def float64Arith : Arith Float64 :=
  ⟨.finite 0, Float64.add, Float64.div, Float64.ofCount⟩

/-- Exact arithmetic on the rationals, for the statements made "over exact
    arithmetic". -/
def exactArith : Arith ℚ :=
  ⟨0, fun a b => a + b, fun a b => a / b, fun n => (n : ℚ)⟩

/-- The `for _, close := range days` loop: the running `total` and `count`. -/
def averageLoop {F : Type} (A : Arith F) (entries : List (String × F)) (total : F)
    (count : Nat) : F × Nat :=
  match entries with
  | [] => (total, count)
  | (_, close) :: rest => averageLoop A rest (A.add total close) (count + 1)

/-- `calculateAverageClosingPrice(days)`, in the arithmetic `A`. -/
def calculateAverageClosingPrice {F : Type} (A : Arith F) (days : GoMap F) : F :=
  let r := averageLoop A days A.zero 0
  if r.2 > 0 then A.div r.1 (A.ofCount r.2) else A.zero

/-! ## A decimal reader used to evaluate examples -/

/-- Value of a run of decimal digits read left to right from `acc`;
    `none` when a character is not a digit. -/
def digitsValue (cs : List Char) (acc : Nat) : Option Nat :=
  match cs with
  | [] => some acc
  | c :: rest => if isDigit c then digitsValue rest (acc * 10 + digitVal c) else none

/-- Unsigned plain decimal literal `digits[.digits]` with at least one digit. -/
def parseUnsignedDecimal (cs : List Char) : Option ℚ :=
  let ip := cs.takeWhile (fun c => c != '.')
  let fp := (cs.dropWhile (fun c => c != '.')).drop 1
  if ip.length + fp.length = 0 then none
  else
    match digitsValue ip 0, digitsValue fp 0 with
    | some i, some f => some ((i : ℚ) + (f : ℚ) / ((10 ^ fp.length : Nat) : ℚ))
    | _, _ => none

/-- The exact value of a plain decimal literal `[+-]digits[.digits]`.  It is not
    `strconv.ParseFloat`: that function also reads exponents, hexadecimal
    literals, `inf` and `nan`, rounds to the nearest float64 and fails on a
    literal beyond the float64 range.  It is used only to evaluate examples, at
    strings on which both fail or on which ParseFloat returns this very value. -/
def parseDecimal (s : String) : Option ℚ :=
  match s.data with
  | '-' :: rest => (parseUnsignedDecimal rest).map (fun q => -q)
  | '+' :: rest => parseUnsignedDecimal rest
  | cs => parseUnsignedDecimal cs

/-- A plain decimal literal read as `strconv.ParseFloat(s, 64)` reads it: the
    nearest float64, minus zero for a negative literal of value zero, and an
    error (`none`) when the value is out of range.  Like `parseDecimal` it reads
    plain decimal literals only. -/
def parseFloat64 (s : String) : Option Float64 :=
  match parseDecimal s with
  | none => none
  | some q =>
    match roundQ q with
    | .inf _ => none
    | .finite r =>
      if r = 0 ∧ s.data.head? = some '-' then some .negZero else some (.finite r)
    | other => some other

/-! ## getStockData -/

/-- ErrorResponse represents an error response. -/
structure ErrorResponse where
  Error : String
deriving DecidableEq, Repr

/-- StockData represents the stock data response. -/
structure StockData (F : Type) where
  Days : GoMap F
  Average : F
deriving DecidableEq

/-- The value handed to one `c.JSON` call. -/
inductive JsonBody (F : Type) where
  | errorResponse (e : ErrorResponse)
  | stockData (d : StockData F)
deriving DecidableEq

/-- One `c.JSON(code, obj)` call of the handler. -/
structure JsonWrite (F : Type) where
  code : Nat
  body : JsonBody F
deriving DecidableEq

/-- What reading and decoding the upstream reply body gives: `ioutil.ReadAll`
    fails, or `json.Unmarshal` fails with the given error text, or the payload
    decodes and its field "Time Series (Daily)" holds the given entries. -/
inductive UpstreamBody where
  | unreadable
  | undecodable (err : String)
  | decoded (timeSeries : List (String × StockDataPoint))

/-- The `*http.Response` of a completed `http.Get`; `closeErr` is the error of
    `resp.Body.Close()`, if any. -/
structure UpstreamResponse where
  StatusCode : Nat
  body : UpstreamBody
  closeErr : Option String

deriving instance DecidableEq for Except

/-- Two-complement wrap of Go's 64-bit `int`. -/
def wrapInt64 (x : Int) : Int := (x + 2 ^ 63) % 2 ^ 64 - 2 ^ 63

/-- Sign and digits of `strconv.Atoi`: an optional `+` or `-`, then the rest. -/
def splitSign (cs : List Char) : Bool × List Char :=
  match cs with
  | [] => (false, [])
  | c :: rest => if c = '-' then (true, rest) else if c = '+' then (false, rest) else (false, c :: rest)

/-- `strconv.Atoi(s)`: an optional sign and at least one decimal digit, the value
    in the range of a 64-bit `int`.  The error carries the text of `err`; the
    quoting of `s` in it is the plain one, exact for strings `strconv.Quote`
    does not escape. -/
def strconvAtoi (s : String) : Except String Int :=
  let sd := splitSign s.data
  match (if sd.2 = [] then none else digitsValue sd.2 0) with
  | none => .error ("strconv.Atoi: parsing \"" ++ s ++ "\": invalid syntax")
  | some n =>
    let v : Int := if sd.1 then -(n : Int) else (n : Int)
    if -(2 ^ 63) ≤ v ∧ v < 2 ^ 63 then .ok v
    else .error ("strconv.Atoi: parsing \"" ++ s ++ "\": value out of range")

/-- `time.ParseDuration(fmt.Sprintf("-%dh", nDaysInt*24))`.  The product wraps
    in 64 bits.  A negative product prints as `--...h`, which is no duration;
    a product over 2562047 hours does not fit an `int64` of nanoseconds. -/
def nDaysDuration (nDaysInt : Int) : Except String Int :=
  let hours := wrapInt64 (nDaysInt * 24)
  if 0 ≤ hours ∧ hours ≤ 2562047 then .ok (-(hours * nsPerHour))
  else .error ("time: invalid duration \"-" ++ toString hours ++ "h\"")

/-- The deferred closure: `resp.Body.Close()` and its `c.JSON` on failure. -/
def deferredClose {F : Type} (resp : UpstreamResponse) : List (JsonWrite F) :=
  match resp.closeErr with
  | some err =>
    [⟨500, .errorResponse ⟨"Failed to close the request body.Err: " ++ err⟩⟩]
  | none => []

/-- The handler from `ioutil.ReadAll` on (lines 153-179). -/
def readAndRespond {F : Type} (A : Arith F) (pf : String → Option F) (now nDays : Int)
    (resp : UpstreamResponse) : List (JsonWrite F) :=
  match resp.body with
  | .unreadable => [⟨500, .errorResponse ⟨"Failed to read stock quote response"⟩⟩]
  | .undecodable err =>
    [⟨500, .errorResponse ⟨"Failed to parse stock quote JSON. Err: " ++ err⟩⟩]
  | .decoded timeSeries =>
    match parseNDays pf now nDays timeSeries with
    | (_, some err) => [⟨500, .errorResponse ⟨"Failed to parse NDays. Err: " ++ err⟩⟩]
    | (days, none) =>
      let average := calculateAverageClosingPrice A days
      [⟨200, .stockData ⟨days, average⟩⟩]

/-- `getStockData(c)`: the `c.JSON` calls it makes, in order.  `A` is the
    arithmetic of `float64`, `getenv` is `os.Getenv` ("" for an unset variable),
    `httpGet` is `http.Get` (`none` for a non-nil error), `pf` is
    `strconv.ParseFloat(·, 64)` and `now` is `time.Now()`. -/
def getStockData {F : Type} (A : Arith F) (getenv : String → String)
    (httpGet : String → Option UpstreamResponse)
    (pf : String → Option F) (now : Int) : List (JsonWrite F) :=
  let url := getenv "ALPHA_VANTAGE_URL"
  if url = "" then
    [⟨400, .errorResponse ⟨"ALPHA_VANTAGE_URL environment variable is not set"⟩⟩]
  else
  let symbol := getenv "SYMBOL"
  if symbol = "" then
    [⟨400, .errorResponse ⟨"SYMBOL environment variable is not set"⟩⟩]
  else
  let nDaysStr := getenv "NDAYS"
  if nDaysStr = "" then
    [⟨400, .errorResponse ⟨"NDAYS environment variable is not set"⟩⟩]
  else
  match strconvAtoi nDaysStr with
  | .error err =>
    [⟨400, .errorResponse ⟨"Failed to convert NDAYS to in. Err: " ++ err⟩⟩]
  | .ok nDaysInt =>
  match nDaysDuration nDaysInt with
  | .error err =>
    [⟨400, .errorResponse ⟨"Failed to parse NDAYS. Err: " ++ err⟩⟩]
  | .ok nDays =>
  let apiKey := getenv "API_KEY"
  let w1 : List (JsonWrite F) :=
    if apiKey = "" then [⟨400, .errorResponse ⟨"API_KEY environment variable not set"⟩⟩]
    else []
  let quoteURL := url ++ "/query?apikey=" ++ apiKey ++ "&function=TIME_SERIES_DAILY&symbol=" ++ symbol
  match httpGet quoteURL with
  | none => w1 ++ [⟨500, .errorResponse ⟨"Failed to retrieve stock quote"⟩⟩]
  | some resp =>
    let w2 : List (JsonWrite F) :=
      if resp.StatusCode ≠ 200 then
        [⟨500, .errorResponse ⟨"Wrong status code received. Expected: 200, Got: "
          ++ toString resp.StatusCode⟩⟩]
      else []
    w1 ++ w2 ++ readAndRespond A pf now nDays resp ++ deferredClose resp

/-- The status line the caller receives: gin sends the header with the first
    body written, so the code of the first `c.JSON` call. -/
def responseStatus {F : Type} (writes : List (JsonWrite F)) : Option Nat :=
  match writes with
  | [] => none
  | w :: _ => some w.code

/-- The values handed to `c.JSON`, one after the other; each is written to the
    response body as one JSON object.  (A `float64` NaN or infinity has no JSON
    encoding; a value holding one is listed here like any other.) -/
def responseBodies {F : Type} (writes : List (JsonWrite F)) : List (JsonBody F) :=
  writes.map (fun w => w.body)

/-! ## Vocabulary of the statements -/

/-- Whether the loop of `parseNDays` retains a date key: the key parses as a
    calendar day and `!stockDate.Before(cutoff)` holds for its midnight. -/
def retained (cutoff : Int) (date : String) : Bool :=
  match timeParse date with
  | none => false
  | some stockDate => decide (¬ (stockDate < cutoff))

/-- An entry on which `parseNDays` fails: retained, and its price does not parse. -/
def failing {V : Type} (pf : String → Option V) (cutoff : Int)
    (e : String × StockDataPoint) : Bool :=
  retained cutoff e.1 && (pf e.2.Close).isNone

/-- Minus `N` times 24 hours.  The handler builds this window from the day count
    `N` when `N ≤ 106751`; for a larger count its product `N * 24` is rejected by
    `time.ParseDuration` or wraps in 64 bits (see `nDaysDuration`). -/
def windowOfDays (N : Nat) : Int := -((N : Int) * 24 * nsPerHour)

/-- Whether `needle` occurs at the start of `hay`. -/
def startsWith (needle hay : List Char) : Bool :=
  match needle, hay with
  | [], _ => true
  | _ :: _, [] => false
  | a :: as, b :: bs => a == b && startsWith as bs

/-- Whether `needle` occurs somewhere in `hay`. -/
def containsChars (needle hay : List Char) : Bool :=
  match hay with
  | [] => startsWith needle []
  | c :: rest => startsWith needle (c :: rest) || containsChars needle rest

/-- The calendar day (days since 1970-01-01) of the instant `now` in a zone
    `offset` nanoseconds east of UTC. -/
def localDay (offset now : Int) : Int := (now + offset) / nsPerDay

/-! ## Example data -/

/-- The instant 2024-03-03 12:34:56 UTC (day 19785 since 1970-01-01). -/
def exampleNow : Int := 19785 * nsPerDay + 45296 * 1000000000

/-- The instant 2024-03-03 00:00:00 UTC exactly. -/
def exampleMidnight : Int := 19785 * nsPerDay

/-- The instant 2024-03-02 19:00:00 UTC, which is 2024-03-03 05:00 in a zone ten
    hours east of UTC. -/
def exampleEastNow : Int := 19784 * nsPerDay + 19 * nsPerHour

/-- Ten hours east of UTC. -/
def eastOffset : Int := 10 * nsPerHour

/-- The instant 2024-03-04 04:00:00 UTC, which is 2024-03-03 20:00 in a zone eight
    hours west of UTC. -/
def exampleWestNow : Int := 19786 * nsPerDay + 4 * nsPerHour

/-- Eight hours west of UTC. -/
def westOffset : Int := -(8 * nsPerHour)

/-- A day count whose product with 24 wraps in 64 bits to 8. -/
def wrappingDayCount : Int := 768614336404564651

/-- The series of the test of `parseNDays`, for today = 2024-03-03: nine
    consecutive days, today first, with the closes of the test. -/
def testSeries : List (String × StockDataPoint) :=
  [("2024-03-03", ⟨"100.0"⟩), ("2024-03-02", ⟨"200.0"⟩), ("2024-03-01", ⟨"150.0"⟩),
   ("2024-02-29", ⟨"180.0"⟩), ("2024-02-28", ⟨"250.0"⟩), ("2024-02-27", ⟨"220.0"⟩),
   ("2024-02-26", ⟨"300.0"⟩), ("2024-02-25", ⟨"320.0"⟩), ("2024-02-24", ⟨"340.0"⟩)]

/-- The map the test of `parseNDays` expects. -/
def testExpected : GoMap ℚ :=
  [("2024-03-03", 100), ("2024-03-02", 200), ("2024-03-01", 150), ("2024-02-29", 180),
   ("2024-02-28", 250), ("2024-02-27", 220), ("2024-02-26", 300)]

/-- The test series visited oldest day first. -/
def testSeriesReversed : List (String × StockDataPoint) := testSeries.reverse

/-- A series with a date key that is no calendar day and a price outside the window
    that is no number. -/
def mixedSeries : List (String × StockDataPoint) :=
  [("2024-03-03", ⟨"100.0"⟩), ("not a date", ⟨"n/a"⟩), ("2024-02-30", ⟨"1.0"⟩),
   ("2024-01-01", ⟨"n/a"⟩), ("2024-03-02", ⟨"200.0"⟩)]

/-- A series whose second entry is in the window with a price that is no number. -/
def brokenSeries : List (String × StockDataPoint) :=
  [("2024-03-03", ⟨"100.0"⟩), ("2024-03-02", ⟨"n/a"⟩), ("2024-03-01", ⟨"150.0"⟩)]

/-- The configuration of the end-to-end test: all four variables set. -/
def testEnv (name : String) : String :=
  if name = "ALPHA_VANTAGE_URL" then "http://127.0.0.1:8081"
  else if name = "SYMBOL" then "MSFT"
  else if name = "NDAYS" then "7"
  else if name = "API_KEY" then "o2837weuhfkhasdk"
  else ""

/-- The configuration of the test with `API_KEY` unset. -/
def noKeyEnv (name : String) : String :=
  if name = "API_KEY" then "" else testEnv name

/-- The reply of the test's mock server to a request it does not accept: status
    400 and the body `\x7b"error": "Invalid request"\x7d`, which `json.Unmarshal`
    decodes into a `TimeSeriesDaily` with no time series. -/
def invalidRequestReply : UpstreamResponse :=
  ⟨400, .decoded [], none⟩

/-- The reply of the test's mock server to the matching symbol and key, for
    today = 2024-03-03: status 200 and seven days of data. -/
def mockReply : UpstreamResponse :=
  ⟨200, .decoded
    [("2024-03-03", ⟨"100.0"⟩), ("2024-03-02", ⟨"120.0"⟩), ("2024-03-01", ⟨"140.0"⟩),
     ("2024-02-29", ⟨"160.0"⟩), ("2024-02-28", ⟨"180.0"⟩), ("2024-02-27", ⟨"200.0"⟩),
     ("2024-02-26", ⟨"220.0"⟩)], none⟩

/-! ## Theorems -/

/-! ### Map reads after writes -/

theorem GoMap.get?_set {V : Type} (m : GoMap V) (k k' : String) (v : V) :
    (m.set k v).get? k' = if k = k' then some v else m.get? k' := by
  induction m with
  | nil => simp [GoMap.set, GoMap.get?]
  | cons e rest ih =>
    obtain ⟨a, b⟩ := e
    by_cases h : a = k
    · subst h
      by_cases h' : a = k' <;> simp [GoMap.set, GoMap.get?, h']
    · by_cases h' : a = k'
      · subst h'
        simp [GoMap.set, GoMap.get?, h, Ne.symm h]
      · simp [GoMap.set, GoMap.get?, h, h', ih]

/-! ### One step of the loop -/

theorem retained_iff (cutoff : Int) (date : String) :
    retained cutoff date = true ↔ ∃ t, timeParse date = some t ∧ ¬ (t < cutoff) := by
  unfold retained
  cases h : timeParse date <;> simp

theorem loop_skip {V : Type} (pf : String → Option V) (cutoff : Int) (date : String)
    (sd : StockDataPoint) (rest : List (String × StockDataPoint)) (days : GoMap V)
    (h : retained cutoff date = false) :
    parseNDaysLoop pf cutoff ((date, sd) :: rest) days = parseNDaysLoop pf cutoff rest days := by
  unfold retained at h
  rw [parseNDaysLoop]
  cases ht : timeParse date with
  | none => rfl
  | some t =>
    rw [ht] at h
    simp at h
    simp [h]

theorem loop_fail {V : Type} (pf : String → Option V) (cutoff : Int) (date : String)
    (sd : StockDataPoint) (rest : List (String × StockDataPoint)) (days : GoMap V)
    (h : retained cutoff date = true) (hp : pf sd.Close = none) :
    parseNDaysLoop pf cutoff ((date, sd) :: rest) days = (days, some errInvalidClose) := by
  unfold retained at h
  rw [parseNDaysLoop]
  cases ht : timeParse date with
  | none => rw [ht] at h; simp at h
  | some t =>
    rw [ht] at h
    simp at h
    simp [h, hp]

theorem loop_keep {V : Type} (pf : String → Option V) (cutoff : Int) (date : String)
    (sd : StockDataPoint) (rest : List (String × StockDataPoint)) (days : GoMap V) (v : V)
    (h : retained cutoff date = true) (hp : pf sd.Close = some v) :
    parseNDaysLoop pf cutoff ((date, sd) :: rest) days
      = parseNDaysLoop pf cutoff rest (days.set date v) := by
  unfold retained at h
  rw [parseNDaysLoop]
  cases ht : timeParse date with
  | none => rw [ht] at h; simp at h
  | some t =>
    rw [ht] at h
    simp at h
    simp [h, hp]

/-! ### Invariants of the loop -/

theorem loop_error_iff {V : Type} (pf : String → Option V) (cutoff : Int)
    (s : List (String × StockDataPoint)) (days : GoMap V) :
    (parseNDaysLoop pf cutoff s days).2 ≠ none ↔ ∃ e ∈ s, failing pf cutoff e = true := by
  induction s generalizing days with
  | nil => simp [parseNDaysLoop]
  | cons e rest ih =>
    obtain ⟨date, sd⟩ := e
    cases hr : retained cutoff date with
    | false =>
      rw [loop_skip pf cutoff date sd rest days hr, ih]
      simp [failing, hr]
    | true =>
      cases hp : pf sd.Close with
      | none =>
        rw [loop_fail pf cutoff date sd rest days hr hp]
        simp [failing, hr, hp]
      | some v =>
        rw [loop_keep pf cutoff date sd rest days v hr hp, ih]
        simp [failing, hr, hp]

theorem loop_error_text {V : Type} (pf : String → Option V) (cutoff : Int)
    (s : List (String × StockDataPoint)) (days : GoMap V) (msg : String)
    (h : (parseNDaysLoop pf cutoff s days).2 = some msg) : msg = errInvalidClose := by
  induction s generalizing days with
  | nil => simp [parseNDaysLoop] at h
  | cons e rest ih =>
    obtain ⟨date, sd⟩ := e
    cases hr : retained cutoff date with
    | false =>
      rw [loop_skip pf cutoff date sd rest days hr] at h
      exact ih days h
    | true =>
      cases hp : pf sd.Close with
      | none =>
        rw [loop_fail pf cutoff date sd rest days hr hp] at h
        simpa using h.symm
      | some v =>
        rw [loop_keep pf cutoff date sd rest days v hr hp] at h
        exact ih _ h

theorem loop_get_sound {V : Type} (pf : String → Option V) (cutoff : Int)
    (s : List (String × StockDataPoint)) (days : GoMap V) (d : String) (v : V)
    (h : (parseNDaysLoop pf cutoff s days).1.get? d = some v) :
    days.get? d = some v ∨
      ∃ sd, (d, sd) ∈ s ∧ retained cutoff d = true ∧ pf sd.Close = some v := by
  induction s generalizing days with
  | nil => left; simpa [parseNDaysLoop] using h
  | cons e rest ih =>
    obtain ⟨date, sd⟩ := e
    cases hr : retained cutoff date with
    | false =>
      rw [loop_skip pf cutoff date sd rest days hr] at h
      rcases ih days h with h1 | ⟨sd', hm, h2, h3⟩
      · exact Or.inl h1
      · exact Or.inr ⟨sd', List.mem_cons_of_mem _ hm, h2, h3⟩
    | true =>
      cases hp : pf sd.Close with
      | none =>
        rw [loop_fail pf cutoff date sd rest days hr hp] at h
        exact Or.inl h
      | some w =>
        rw [loop_keep pf cutoff date sd rest days w hr hp] at h
        rcases ih _ h with h1 | ⟨sd', hm, h2, h3⟩
        · rw [GoMap.get?_set] at h1
          by_cases hd : date = d
          · subst hd
            simp at h1
            subst h1
            exact Or.inr ⟨sd, List.mem_cons_self _ _, hr, hp⟩
          · simp [hd] at h1
            exact Or.inl h1
        · exact Or.inr ⟨sd', List.mem_cons_of_mem _ hm, h2, h3⟩

theorem loop_get_frame {V : Type} (pf : String → Option V) (cutoff : Int)
    (s : List (String × StockDataPoint)) (days : GoMap V) (d : String)
    (h : d ∉ s.map Prod.fst) :
    (parseNDaysLoop pf cutoff s days).1.get? d = days.get? d := by
  induction s generalizing days with
  | nil => simp [parseNDaysLoop]
  | cons e rest ih =>
    obtain ⟨date, sd⟩ := e
    simp only [List.map_cons, List.mem_cons, not_or] at h
    cases hr : retained cutoff date with
    | false =>
      rw [loop_skip pf cutoff date sd rest days hr]
      exact ih days h.2
    | true =>
      cases hp : pf sd.Close with
      | none =>
        rw [loop_fail pf cutoff date sd rest days hr hp]
      | some w =>
        rw [loop_keep pf cutoff date sd rest days w hr hp, ih _ h.2, GoMap.get?_set]
        simp [Ne.symm h.1]

theorem loop_get_complete {V : Type} (pf : String → Option V) (cutoff : Int)
    (s : List (String × StockDataPoint)) (days : GoMap V) (d : String)
    (sd : StockDataPoint) (v : V)
    (hk : (s.map Prod.fst).Nodup)
    (hok : (parseNDaysLoop pf cutoff s days).2 = none)
    (hm : (d, sd) ∈ s) (hr : retained cutoff d = true) (hp : pf sd.Close = some v) :
    (parseNDaysLoop pf cutoff s days).1.get? d = some v := by
  induction s generalizing days with
  | nil => simp at hm
  | cons e rest ih =>
    obtain ⟨date, sd0⟩ := e
    simp only [List.map_cons, List.nodup_cons] at hk
    rcases List.mem_cons.mp hm with heq | hin
    · injection heq with h1 h2
      subst h1; subst h2
      rw [loop_keep pf cutoff d sd rest days v hr hp, loop_get_frame pf cutoff rest _ d hk.1,
        GoMap.get?_set]
      simp
    · cases hr0 : retained cutoff date with
      | false =>
        rw [loop_skip pf cutoff date sd0 rest days hr0] at hok ⊢
        exact ih days hk.2 hok hin
      | true =>
        cases hp0 : pf sd0.Close with
        | none =>
          rw [loop_fail pf cutoff date sd0 rest days hr0 hp0] at hok
          simp at hok
        | some w =>
          rw [loop_keep pf cutoff date sd0 rest days w hr0 hp0] at hok ⊢
          exact ih _ hk.2 hok hin

theorem loop_drop_unparsable {V : Type} (pf : String → Option V) (cutoff : Int)
    (s : List (String × StockDataPoint)) (days : GoMap V) :
    parseNDaysLoop pf cutoff (s.filter (fun e => (timeParse e.1).isSome)) days
      = parseNDaysLoop pf cutoff s days := by
  induction s generalizing days with
  | nil => rfl
  | cons e rest ih =>
    obtain ⟨date, sd⟩ := e
    cases ht : timeParse date with
    | none =>
      have hr : retained cutoff date = false := by simp [retained, ht]
      rw [loop_skip pf cutoff date sd rest days hr]
      simp [List.filter, ht, ih]
    | some t =>
      have hf : ((date, sd) :: rest).filter (fun e => (timeParse e.1).isSome)
          = (date, sd) :: rest.filter (fun e => (timeParse e.1).isSome) := by
        simp [List.filter, ht]
      rw [hf]
      cases hr : retained cutoff date with
      | false =>
        rw [loop_skip pf cutoff date sd _ days hr, loop_skip pf cutoff date sd _ days hr, ih]
      | true =>
        cases hp : pf sd.Close with
        | none =>
          rw [loop_fail pf cutoff date sd _ days hr hp, loop_fail pf cutoff date sd _ days hr hp]
        | some w =>
          rw [loop_keep pf cutoff date sd _ days w hr hp,
            loop_keep pf cutoff date sd _ days w hr hp, ih]

theorem loop_until_failure {V : Type} (pf : String → Option V) (cutoff : Int)
    (s : List (String × StockDataPoint)) (days : GoMap V)
    (h : ∃ e ∈ s, failing pf cutoff e = true) :
    ∃ pre bad post, s = pre ++ bad :: post ∧ (∀ e ∈ pre, failing pf cutoff e = false)
      ∧ failing pf cutoff bad = true
      ∧ parseNDaysLoop pf cutoff s days
          = ((parseNDaysLoop pf cutoff pre days).1, some errInvalidClose) := by
  induction s generalizing days with
  | nil => simp at h
  | cons e rest ih =>
    obtain ⟨date, sd⟩ := e
    by_cases hf : failing pf cutoff (date, sd) = true
    · refine ⟨[], (date, sd), rest, rfl, by simp, hf, ?_⟩
      simp only [failing, Bool.and_eq_true, Option.isNone_iff_eq_none] at hf
      rw [loop_fail pf cutoff date sd rest days hf.1 hf.2]
      simp [parseNDaysLoop]
    · have hf' : failing pf cutoff (date, sd) = false := by simpa using hf
      have hrest : ∃ e ∈ rest, failing pf cutoff e = true := by
        obtain ⟨e, he, hfe⟩ := h
        rcases List.mem_cons.mp he with heq | hin
        · subst heq; rw [hfe] at hf'; cases hf'
        · exact ⟨e, hin, hfe⟩
      cases hr : retained cutoff date with
      | false =>
        obtain ⟨pre, bad, post, hs, hpre, hbad, hres⟩ := ih days hrest
        refine ⟨(date, sd) :: pre, bad, post, by simp [hs], ?_, hbad, ?_⟩
        · intro e he
          rcases List.mem_cons.mp he with heq | hin
          · subst heq; exact hf'
          · exact hpre e hin
        · rw [loop_skip pf cutoff date sd rest days hr, loop_skip pf cutoff date sd pre days hr]
          exact hres
      | true =>
        cases hp : pf sd.Close with
        | none => simp [failing, hr, hp] at hf'
        | some w =>
          obtain ⟨pre, bad, post, hs, hpre, hbad, hres⟩ := ih (days.set date w) hrest
          refine ⟨(date, sd) :: pre, bad, post, by simp [hs], ?_, hbad, ?_⟩
          · intro e he
            rcases List.mem_cons.mp he with heq | hin
            · subst heq; exact hf'
            · exact hpre e hin
          · rw [loop_keep pf cutoff date sd rest days w hr hp,
              loop_keep pf cutoff date sd pre days w hr hp]
            exact hres

/-! ### The window filter -/

/-- C1: when every retained entry has a price that parses, `parseNDays` returns
    no error and a map whose entries are exactly the date keys of the series that
    parse as a calendar day not before `now + window`, each mapped to the parsed
    close of its entry.  It holds for every window, the non-positive ones the
    handler builds included. -/
theorem C1_filter_exact {V : Type} (pf : String → Option V) (now window : Int)
    (series : List (String × StockDataPoint))
    (hkeys : (series.map Prod.fst).Nodup)
    (hprices : ∀ e ∈ series, retained (now + window) e.1 = true → (pf e.2.Close).isSome = true) :
    (parseNDays pf now window series).2 = none
    ∧ ∀ d v, (parseNDays pf now window series).1.get? d = some v ↔
        ∃ sd, (d, sd) ∈ series
          ∧ (∃ t, timeParse d = some t ∧ ¬ (t < now + window))
          ∧ pf sd.Close = some v := by
  have hok : (parseNDays pf now window series).2 = none := by
    by_contra hne
    obtain ⟨e, he, hf⟩ := (loop_error_iff pf (now + window) series []).mp hne
    simp only [failing, Bool.and_eq_true, Option.isNone_iff_eq_none] at hf
    have := hprices e he hf.1
    rw [hf.2] at this
    simp at this
  refine ⟨hok, fun d v => ⟨fun h => ?_, fun h => ?_⟩⟩
  · rcases loop_get_sound pf (now + window) series [] d v h with h0 | ⟨sd, hm, hr, hp⟩
    · simp [GoMap.get?] at h0
    · exact ⟨sd, hm, (retained_iff _ _).mp hr, hp⟩
  · obtain ⟨sd, hm, hr, hp⟩ := h
    exact loop_get_complete pf (now + window) series [] d sd v hkeys hok hm
      ((retained_iff _ _).mpr hr) hp

/-- C1 at the nine-day test series, 2024-03-03 12:34:56 and the window of 7 days. -/
theorem C1_filter_exact_witness :
    (testSeries.map Prod.fst).Nodup
    ∧ (∀ e ∈ testSeries, retained (exampleNow + windowOfDays 7) e.1 = true →
        (parseDecimal e.2.Close).isSome = true)
    ∧ (parseNDays parseDecimal exampleNow (windowOfDays 7) testSeries).2 = none
    ∧ ∀ d v, (parseNDays parseDecimal exampleNow (windowOfDays 7) testSeries).1.get? d = some v ↔
        ∃ sd, (d, sd) ∈ testSeries
          ∧ (∃ t, timeParse d = some t ∧ ¬ (t < exampleNow + windowOfDays 7))
          ∧ parseDecimal sd.Close = some v :=
  ⟨by decide, by decide!,
    C1_filter_exact parseDecimal exampleNow (windowOfDays 7) testSeries (by decide) (by decide!)⟩

/-- C5: in whatever order the entries are visited, `parseNDays` returns an error
    if and only if the series holds an entry whose date parses, is not before
    `now + window`, and whose close price does not parse.  An entry outside the
    window or with an unparsable date is not such an entry, whatever its price. -/
theorem C5_error_iff {V : Type} (pf : String → Option V) (now window : Int)
    (series visit : List (String × StockDataPoint)) (hvisit : visit.Perm series) :
    (parseNDays pf now window visit).2 ≠ none ↔
      ∃ e ∈ series, (∃ t, timeParse e.1 = some t ∧ ¬ (t < now + window))
        ∧ pf e.2.Close = none := by
  unfold parseNDays
  rw [loop_error_iff]
  constructor
  · rintro ⟨e, he, hf⟩
    simp only [failing, Bool.and_eq_true, Option.isNone_iff_eq_none] at hf
    exact ⟨e, hvisit.mem_iff.mp he, (retained_iff _ _).mp hf.1, hf.2⟩
  · rintro ⟨e, he, hr, hp⟩
    refine ⟨e, hvisit.mem_iff.mpr he, ?_⟩
    simp only [failing, Bool.and_eq_true, Option.isNone_iff_eq_none]
    exact ⟨(retained_iff _ _).mpr hr, hp⟩

/-- C5 at `brokenSeries` visited in reverse order. -/
theorem C5_error_iff_witness :
    brokenSeries.reverse.Perm brokenSeries
    ∧ ((parseNDays parseDecimal exampleNow (windowOfDays 7) brokenSeries.reverse).2 ≠ none ↔
      ∃ e ∈ brokenSeries,
        (∃ t, timeParse e.1 = some t ∧ ¬ (t < exampleNow + windowOfDays 7))
        ∧ parseDecimal e.2.Close = none) :=
  ⟨by decide,
    C5_error_iff parseDecimal exampleNow (windowOfDays 7) brokenSeries brokenSeries.reverse
      (by decide)⟩

/-- C6: an entry whose date key does not parse as a calendar day is never a key
    of the returned map, and removing all such entries from the series leaves the
    result of `parseNDays`, map and error, unchanged. -/
theorem C6_unparsable_dates_skipped {V : Type} (pf : String → Option V) (now window : Int)
    (series : List (String × StockDataPoint)) :
    parseNDays pf now window (series.filter (fun e => (timeParse e.1).isSome))
        = parseNDays pf now window series
    ∧ ∀ d, timeParse d = none → (parseNDays pf now window series).1.get? d = none := by
  refine ⟨loop_drop_unparsable pf (now + window) series [], fun d hd => ?_⟩
  cases hg : (parseNDays pf now window series).1.get? d with
  | none => rfl
  | some v =>
    rcases loop_get_sound pf (now + window) series [] d v hg with h0 | ⟨sd, _, hr, _⟩
    · simp [GoMap.get?] at h0
    · simp [retained, hd] at hr

/-- C9, as amended: in whatever order the entries are visited, a series holding
    a retained entry whose price does not parse makes `parseNDays` return the
    error, and the map returned with it is the map built from the entries visited
    before the first such entry: each of its entries is a retained entry of the
    series with its parsed price. -/
theorem C9_error_keeps_earlier_entries {V : Type} (pf : String → Option V) (now window : Int)
    (series visit : List (String × StockDataPoint)) (hvisit : visit.Perm series)
    (hbad : ∃ e ∈ series, retained (now + window) e.1 = true ∧ pf e.2.Close = none) :
    (parseNDays pf now window visit).2 = some errInvalidClose
    ∧ (∃ pre bad post, visit = pre ++ bad :: post
        ∧ (∀ e ∈ pre, failing pf (now + window) e = false)
        ∧ failing pf (now + window) bad = true
        ∧ (parseNDays pf now window visit).1 = (parseNDays pf now window pre).1)
    ∧ ∀ d v, (parseNDays pf now window visit).1.get? d = some v →
        ∃ sd, (d, sd) ∈ series ∧ retained (now + window) d = true ∧ pf sd.Close = some v := by
  have hbad' : ∃ e ∈ visit, failing pf (now + window) e = true := by
    obtain ⟨e, he, hr, hp⟩ := hbad
    exact ⟨e, hvisit.mem_iff.mpr he, by simp [failing, hr, hp]⟩
  obtain ⟨pre, bad, post, hs, hpre, hb, hres⟩ :=
    loop_until_failure pf (now + window) visit [] hbad'
  refine ⟨?_, ⟨pre, bad, post, hs, hpre, hb, ?_⟩, fun d v h => ?_⟩
  · unfold parseNDays; rw [hres]
  · unfold parseNDays; rw [hres]
  · rcases loop_get_sound pf (now + window) visit [] d v h with h0 | ⟨sd, hm, hr, hp⟩
    · simp [GoMap.get?] at h0
    · exact ⟨sd, hvisit.mem_iff.mp hm, hr, hp⟩

/-- C9 as amended, at `brokenSeries`: the error is returned. -/
theorem C9_error_keeps_earlier_entries_witness :
    (parseNDays parseDecimal exampleNow (windowOfDays 7) brokenSeries).2 = some errInvalidClose :=
  (C9_error_keeps_earlier_entries parseDecimal exampleNow (windowOfDays 7) brokenSeries brokenSeries
    (List.Perm.refl _) ⟨("2024-03-02", ⟨"n/a"⟩), by decide, by decide, by decide⟩).1

/-- C9 as stated fails: visiting `brokenSeries` in its order, the entry of
    2024-03-02 is in the window and its price `n/a` is no number, the error is
    returned, and the map returned with it holds the entry of 2024-03-03. -/
theorem C9_counterexample :
    retained (exampleNow + windowOfDays 7) "2024-03-02" = true
    ∧ parseDecimal "n/a" = none
    ∧ parseNDays parseDecimal exampleNow (windowOfDays 7) brokenSeries
        = ([("2024-03-03", 100)], some errInvalidClose) := by
  decide!

/-- C10, as amended: whenever `parseNDays` fails, the error text is one fixed
    message, the same for every malformed price: it names the field and the Go
    type `string` of the value (the verb is `%T`), not the price string. -/
theorem C10_error_text_fixed {V : Type} (pf : String → Option V) (now window : Int)
    (series : List (String × StockDataPoint)) (msg : String)
    (herr : (parseNDays pf now window series).2 = some msg) :
    msg = "invalid value for \x27StockDataPoint.Time Series (Daily).4. close\x27. Expected: string, got string" :=
  loop_error_text pf (now + window) series [] msg herr

/-- C10 as amended, at `brokenSeries`: the error text is the fixed message. -/
theorem C10_error_text_fixed_witness :
    (parseNDays parseDecimal exampleNow (windowOfDays 7) brokenSeries).2 = some errInvalidClose
    ∧ errInvalidClose
        = "invalid value for \x27StockDataPoint.Time Series (Daily).4. close\x27. Expected: string, got string" :=
  ⟨by decide!,
    C10_error_text_fixed parseDecimal exampleNow (windowOfDays 7) brokenSeries errInvalidClose
      (by decide!)⟩

/-- C10 as stated fails: the malformed prices `n/a` and `12,5` give the same
    error text, and that text contains neither of them. -/
theorem C10_counterexample :
    parseDecimal "n/a" = none ∧ parseDecimal "12,5" = none
    ∧ (parseNDays parseDecimal exampleNow (windowOfDays 7) [("2024-03-03", ⟨"n/a"⟩)]).2
        = (parseNDays parseDecimal exampleNow (windowOfDays 7) [("2024-03-03", ⟨"12,5"⟩)]).2
    ∧ (parseNDays parseDecimal exampleNow (windowOfDays 7) [("2024-03-03", ⟨"n/a"⟩)]).2
        = some errInvalidClose
    ∧ containsChars "n/a".data errInvalidClose.data = false
    ∧ containsChars "12,5".data errInvalidClose.data = false := by
  decide

/-! ### The window in calendar days -/

theorem retained_of_day (cutoff : Int) (date : String) (day : Int)
    (h : parseDay date = some day) :
    retained cutoff date = decide (¬ (day * nsPerDay < cutoff)) := by
  simp [retained, timeParse, h]

theorem retained_day {cutoff : Int} {date : String} (h : retained cutoff date = true) :
    ∃ day, parseDay date = some day ∧ ¬ (day * nsPerDay < cutoff) := by
  cases hd : parseDay date with
  | none => simp [retained, timeParse, hd] at h
  | some day =>
    rw [retained_of_day cutoff date day hd] at h
    exact ⟨day, rfl, by simpa using h⟩

theorem nDaysDuration_eq_windowOfDays (N : Nat) (hN : N ≤ 106751) :
    nDaysDuration (N : Int) = .ok (windowOfDays N) := by
  have hw : wrapInt64 ((N : Int) * 24) = (N : Int) * 24 := by
    unfold wrapInt64
    omega
  unfold nDaysDuration windowOfDays
  simp only [hw]
  rw [if_pos (by omega)]

theorem wrapInt64_le (x : Int) (hx : 0 ≤ x) : wrapInt64 x ≤ x := by
  unfold wrapInt64
  omega

theorem nDaysDuration_ok {nDaysInt w : Int} (h : nDaysDuration nDaysInt = .ok w) :
    0 ≤ wrapInt64 (nDaysInt * 24) ∧ wrapInt64 (nDaysInt * 24) ≤ 2562047
      ∧ w = -(wrapInt64 (nDaysInt * 24) * nsPerHour) := by
  unfold nDaysDuration at h
  simp only at h
  split at h
  · rename_i hc
    injection h with h
    exact ⟨hc.1, hc.2, h.symm⟩
  · cases h

/-- C2, as amended: for every non-negative day count `N` that the handler turns
    into a window `w`, every entry of the map `parseNDays` returns has a calendar
    date on or after today - N days, today being the calendar day of `now` in any
    zone; and when `N ≤ 106751` (so that `w` is -N*24h), the calendar day of `now`
    is the same in the zone as in UTC and `parseNDays` returns no error, every
    entry of the series whose calendar date is after today - N days and whose
    price parses is in the map with its parsed price. -/
theorem C2_window_in_days {V : Type} (pf : String → Option V) (now offset nDaysInt w : Int)
    (series : List (String × StockDataPoint))
    (hN : 0 ≤ nDaysInt) (hw : nDaysDuration nDaysInt = .ok w)
    (hzone : offset < nsPerDay)
    (hkeys : (series.map Prod.fst).Nodup) :
    (∀ d v, (parseNDays pf now w series).1.get? d = some v →
        ∃ day, parseDay d = some day ∧ localDay offset now - nDaysInt ≤ day)
    ∧ (nDaysInt ≤ 106751 → localDay offset now = localDay 0 now →
        (parseNDays pf now w series).2 = none →
        ∀ d sd day v, (d, sd) ∈ series → parseDay d = some day →
          localDay offset now - nDaysInt < day →
          pf sd.Close = some v →
          (parseNDays pf now w series).1.get? d = some v) := by
  obtain ⟨h0, _, hweq⟩ := nDaysDuration_ok hw
  have hle := wrapInt64_le (nDaysInt * 24) (by omega)
  constructor
  · intro d v h
    rcases loop_get_sound pf (now + w) series [] d v h with h0' | ⟨sd, _, hr, _⟩
    · simp [GoMap.get?] at h0'
    · obtain ⟨day, hd, hge⟩ := retained_day hr
      refine ⟨day, hd, ?_⟩
      subst hweq
      simp only [localDay, nsPerDay, nsPerHour] at hge hzone ⊢
      omega
  · intro hsmall hsame hok d sd day v hm hd hday hp
    have hnowrap : wrapInt64 (nDaysInt * 24) = nDaysInt * 24 := by
      unfold wrapInt64
      omega
    refine loop_get_complete pf (now + w) series [] d sd v hkeys hok hm ?_ hp
    rw [retained_of_day _ d day hd]
    subst hweq
    rw [hnowrap]
    simp only [localDay, nsPerDay, nsPerHour] at hday hsame ⊢
    simp only [decide_eq_true_eq]
    omega

/-- C2 as amended, at the nine-day test series, 2024-03-03 12:34:56 UTC, N = 7
    and the zone UTC. -/
theorem C2_window_in_days_witness :
    nDaysDuration 7 = .ok (windowOfDays 7)
    ∧ (testSeries.map Prod.fst).Nodup
    ∧ (∀ d v, (parseNDays parseDecimal exampleNow (windowOfDays 7) testSeries).1.get? d = some v →
        ∃ day, parseDay d = some day ∧ localDay 0 exampleNow - 7 ≤ day)
    ∧ ((7 : Int) ≤ 106751 → localDay 0 exampleNow = localDay 0 exampleNow →
        (parseNDays parseDecimal exampleNow (windowOfDays 7) testSeries).2 = none →
        ∀ d sd day v, (d, sd) ∈ testSeries → parseDay d = some day →
          localDay 0 exampleNow - 7 < day →
          parseDecimal sd.Close = some v →
          (parseNDays parseDecimal exampleNow (windowOfDays 7) testSeries).1.get? d = some v) :=
  ⟨by decide, by decide,
    C2_window_in_days parseDecimal exampleNow 0 7 (windowOfDays 7) testSeries (by decide)
      (by decide) (by decide) (by decide)⟩

/-- C2 as stated fails, in four ways.  (1) At 2024-03-03 12:34:56 UTC with N = 7
    the entry of 2024-02-25 is dated today - 7 days, its price parses, and it is
    not in the map.  (2) In `brokenSeries` the entry of 2024-03-01 is dated
    today - 2 days, its price parses, and it is not in the map returned with the
    error.  (3) For N = 768614336404564651 the handler builds the window -8h, and
    the entry of 2024-03-02, dated today - 1 day, is not in the map.  (4) At
    2024-03-04 04:00 UTC, which is 2024-03-03 20:00 eight hours west of UTC, with
    N = 7 the entry of 2024-02-26 is dated today - 6 days in that zone, its price
    parses, and it is not in the map. -/
theorem C2_counterexample :
    (nDaysDuration 7 = .ok (windowOfDays 7)
      ∧ ("2024-02-25", (⟨"320.0"⟩ : StockDataPoint)) ∈ testSeries
      ∧ parseDay "2024-02-25" = some (localDay 0 exampleNow - 7)
      ∧ parseDecimal "320.0" = some 320
      ∧ (parseNDays parseDecimal exampleNow (windowOfDays 7) testSeries).2 = none
      ∧ (parseNDays parseDecimal exampleNow (windowOfDays 7) testSeries).1.get? "2024-02-25"
          = none)
    ∧ (("2024-03-01", (⟨"150.0"⟩ : StockDataPoint)) ∈ brokenSeries
      ∧ parseDay "2024-03-01" = some (localDay 0 exampleNow - 2)
      ∧ parseDecimal "150.0" = some 150
      ∧ (parseNDays parseDecimal exampleNow (windowOfDays 7) brokenSeries).1.get? "2024-03-01"
          = none)
    ∧ (0 ≤ wrappingDayCount
      ∧ nDaysDuration wrappingDayCount = .ok (-(8 * nsPerHour))
      ∧ ("2024-03-02", (⟨"200.0"⟩ : StockDataPoint)) ∈ testSeries
      ∧ parseDay "2024-03-02" = some (localDay 0 exampleNow - 1)
      ∧ parseDecimal "200.0" = some 200
      ∧ (parseNDays parseDecimal exampleNow (-(8 * nsPerHour)) testSeries).2 = none
      ∧ (parseNDays parseDecimal exampleNow (-(8 * nsPerHour)) testSeries).1.get? "2024-03-02"
          = none)
    ∧ (westOffset < nsPerDay
      ∧ ("2024-02-26", (⟨"300.0"⟩ : StockDataPoint)) ∈ testSeries
      ∧ parseDay "2024-03-03" = some (localDay westOffset exampleWestNow)
      ∧ parseDay "2024-02-26" = some (localDay westOffset exampleWestNow - 6)
      ∧ parseDecimal "300.0" = some 300
      ∧ (parseNDays parseDecimal exampleWestNow (windowOfDays 7) testSeries).2 = none
      ∧ (parseNDays parseDecimal exampleWestNow (windowOfDays 7) testSeries).1.get? "2024-02-26"
          = none) := by
  decide!

/-! ### Keys of the map built by the loop -/

theorem GoMap.mem_keys_set {V : Type} (m : GoMap V) (k d : String) (v : V) :
    d ∈ (m.set k v).map Prod.fst ↔ d = k ∨ d ∈ m.map Prod.fst := by
  induction m with
  | nil => simp [GoMap.set]
  | cons e rest ih =>
    obtain ⟨a, b⟩ := e
    by_cases h : a = k
    · subst h
      simp [GoMap.set]
    · simp only [GoMap.set, h, if_false, List.map_cons, List.mem_cons, ih]
      tauto

theorem GoMap.nodup_keys_set {V : Type} (m : GoMap V) (k : String) (v : V)
    (h : (m.map Prod.fst).Nodup) : ((m.set k v).map Prod.fst).Nodup := by
  induction m with
  | nil => simp [GoMap.set]
  | cons e rest ih =>
    obtain ⟨a, b⟩ := e
    simp only [List.map_cons, List.nodup_cons] at h
    by_cases hak : a = k
    · subst hak
      simpa [GoMap.set] using h
    · simp only [GoMap.set, hak, if_false, List.map_cons, List.nodup_cons]
      refine ⟨?_, ih h.2⟩
      rw [GoMap.mem_keys_set]
      rintro (h1 | h1)
      · exact hak h1
      · exact h.1 h1

theorem GoMap.mem_keys_iff {V : Type} (m : GoMap V) (d : String) :
    d ∈ m.map Prod.fst ↔ ∃ v, m.get? d = some v := by
  induction m with
  | nil => simp [GoMap.get?]
  | cons e rest ih =>
    obtain ⟨a, b⟩ := e
    by_cases h : a = d
    · subst h
      simp [GoMap.get?]
    · simp [GoMap.get?, h, ih, Ne.symm h]

theorem loop_nodup_keys {V : Type} (pf : String → Option V) (cutoff : Int)
    (s : List (String × StockDataPoint)) (days : GoMap V)
    (h : (days.map Prod.fst).Nodup) :
    ((parseNDaysLoop pf cutoff s days).1.map Prod.fst).Nodup := by
  induction s generalizing days with
  | nil => simpa [parseNDaysLoop] using h
  | cons e rest ih =>
    obtain ⟨date, sd⟩ := e
    cases hr : retained cutoff date with
    | false =>
      rw [loop_skip pf cutoff date sd rest days hr]
      exact ih days h
    | true =>
      cases hp : pf sd.Close with
      | none =>
        rw [loop_fail pf cutoff date sd rest days hr hp]
        exact h
      | some w =>
        rw [loop_keep pf cutoff date sd rest days w hr hp]
        exact ih _ (GoMap.nodup_keys_set days date w h)

/-! ### Consecutive days -/

theorem day_of_index (today : Int) (S₀ : List (String × StockDataPoint))
    (hdays : S₀.map (fun e => parseDay e.1)
      = (List.range S₀.length).map (fun (k : Nat) => some (today - (k : Int))))
    (k : Nat) (e : String × StockDataPoint) (he : S₀[k]? = some e) :
    parseDay e.1 = some (today - (k : Int)) := by
  have hk : k < S₀.length := by
    by_contra hge
    rw [List.getElem?_eq_none (by omega)] at he
    cases he
  have h1 : (S₀.map (fun e => parseDay e.1))[k]? = some (parseDay e.1) := by
    rw [List.getElem?_map, he]; rfl
  rw [hdays, List.getElem?_map, List.getElem?_range hk] at h1
  simpa using h1.symm

theorem nodup_keys_of_days (today : Int) (S₀ : List (String × StockDataPoint))
    (hdays : S₀.map (fun e => parseDay e.1)
      = (List.range S₀.length).map (fun (k : Nat) => some (today - (k : Int)))) :
    (S₀.map Prod.fst).Nodup := by
  apply List.Nodup.of_map parseDay
  rw [List.map_map]
  have : (parseDay ∘ Prod.fst : String × StockDataPoint → Option Int)
      = fun e => parseDay e.1 := rfl
  rw [this, hdays]
  apply List.Nodup.map _ (List.nodup_range _)
  intro a b hab
  simp only [Option.some.injEq] at hab
  omega

/-- When `now` is not exactly midnight UTC and the days are UTC days: for a
    series `S₀` that holds one entry with a parsable price for each consecutive
    calendar day from today (index 0) back to at least N days ago, visited in any
    order, `parseNDays` with the window of N days returns no error and a map of
    exactly N entries: the entries of today through N - 1 days ago with their
    parsed prices; the entry dated N days ago and every older one is absent. -/
theorem last_n_days_utc {V : Type} (pf : String → Option V) (now : Int) (N : Nat)
    (S₀ visit : List (String × StockDataPoint))
    (hlen : N < S₀.length)
    (hnow : now % nsPerDay ≠ 0)
    (hdays : S₀.map (fun e => parseDay e.1)
      = (List.range S₀.length).map (fun (k : Nat) => some (now / nsPerDay - (k : Int))))
    (hprices : ∀ e ∈ S₀, (pf e.2.Close).isSome = true)
    (hvisit : visit.Perm S₀) :
    (parseNDays pf now (windowOfDays N) visit).2 = none
    ∧ (∀ k e, S₀[k]? = some e →
        (parseNDays pf now (windowOfDays N) visit).1.get? e.1
          = if k < N then pf e.2.Close else none)
    ∧ (∀ d v, (parseNDays pf now (windowOfDays N) visit).1.get? d = some v →
        ∃ k e, k < N ∧ S₀[k]? = some e ∧ e.1 = d)
    ∧ (parseNDays pf now (windowOfDays N) visit).1.length = N := by
  have hret : ∀ k e, S₀[k]? = some e →
      retained (now + windowOfDays N) e.1 = decide (k < N) := by
    intro k e he
    rw [retained_of_day _ _ _ (day_of_index _ S₀ hdays k e he)]
    simp only [windowOfDays, nsPerDay, nsPerHour] at hnow ⊢
    rw [decide_eq_decide]
    omega
  have hnd0 : (S₀.map Prod.fst).Nodup := nodup_keys_of_days _ S₀ hdays
  have hnd : (visit.map Prod.fst).Nodup := ((hvisit.map Prod.fst).nodup_iff).mpr hnd0
  have hok : (parseNDays pf now (windowOfDays N) visit).2 = none := by
    by_contra hne
    obtain ⟨e, he, hf⟩ := (loop_error_iff pf (now + windowOfDays N) visit []).mp hne
    simp only [failing, Bool.and_eq_true, Option.isNone_iff_eq_none] at hf
    have := hprices e (hvisit.mem_iff.mp he)
    rw [hf.2] at this
    simp at this
  have hget : ∀ k e, S₀[k]? = some e →
      (parseNDays pf now (windowOfDays N) visit).1.get? e.1
        = if k < N then pf e.2.Close else none := by
    intro k e he
    have hmem : e ∈ S₀ := List.mem_iff_getElem?.mpr ⟨k, he⟩
    by_cases hk : k < N
    · rw [if_pos hk]
      obtain ⟨v, hv⟩ := Option.isSome_iff_exists.mp (hprices e hmem)
      rw [hv]
      exact loop_get_complete pf (now + windowOfDays N) visit [] e.1 e.2 v hnd hok
        (hvisit.mem_iff.mpr hmem) (by rw [hret k e he]; simpa using hk) hv
    · rw [if_neg hk]
      cases hg : (parseNDays pf now (windowOfDays N) visit).1.get? e.1 with
      | none => rfl
      | some v =>
        rcases loop_get_sound pf (now + windowOfDays N) visit [] e.1 v hg with h0 | ⟨_, _, hr, _⟩
        · simp [GoMap.get?] at h0
        · rw [hret k e he] at hr
          simp at hr
          exact absurd hr hk
  have honly : ∀ d v, (parseNDays pf now (windowOfDays N) visit).1.get? d = some v →
      ∃ k e, k < N ∧ S₀[k]? = some e ∧ e.1 = d := by
    intro d v hg
    rcases loop_get_sound pf (now + windowOfDays N) visit [] d v hg with h0 | ⟨sd, hm, hr, _⟩
    · simp [GoMap.get?] at h0
    · obtain ⟨k, hk⟩ := List.mem_iff_getElem?.mp (hvisit.mem_iff.mp hm)
      rw [hret k (d, sd) hk] at hr
      exact ⟨k, (d, sd), by simpa using hr, hk, rfl⟩
  refine ⟨hok, hget, honly, ?_⟩
  have hndout : ((parseNDays pf now (windowOfDays N) visit).1.map Prod.fst).Nodup :=
    loop_nodup_keys pf (now + windowOfDays N) visit [] (by simp)
  have hndtake : ((S₀.take N).map Prod.fst).Nodup :=
    List.Nodup.sublist ((List.take_sublist N S₀).map Prod.fst) hnd0
  have hperm : ((parseNDays pf now (windowOfDays N) visit).1.map Prod.fst).Perm
      ((S₀.take N).map Prod.fst) := by
    rw [List.perm_ext_iff_of_nodup hndout hndtake]
    intro d
    rw [GoMap.mem_keys_iff]
    constructor
    · rintro ⟨v, hv⟩
      obtain ⟨k, e, hk, he, hd⟩ := honly d v hv
      refine List.mem_map.mpr ⟨e, List.mem_iff_getElem?.mpr ⟨k, ?_⟩, hd⟩
      rw [List.getElem?_take_of_lt hk, he]
    · intro hd
      obtain ⟨e, he, hed⟩ := List.mem_map.mp hd
      obtain ⟨k, hk⟩ := List.mem_iff_getElem?.mp he
      rw [List.getElem?_take] at hk
      by_cases hkN : k < N
      · rw [if_pos hkN] at hk
        have hmem : e ∈ S₀ := List.mem_iff_getElem?.mpr ⟨k, hk⟩
        obtain ⟨v, hv⟩ := Option.isSome_iff_exists.mp (hprices e hmem)
        refine ⟨v, ?_⟩
        rw [← hed, hget k e hk, if_pos hkN, hv]
      · rw [if_neg hkN] at hk
        cases hk
  have := hperm.length_eq
  simp only [List.length_map, List.length_take] at this
  omega

/-- The test of `parseNDays` at 2024-03-03 12:34:56 UTC, the series visited oldest
    day first: N = 7 over nine days. -/
theorem last_n_days_utc_at_test :
    exampleNow % nsPerDay ≠ 0
    ∧ testSeries.map (fun e => parseDay e.1)
        = (List.range testSeries.length).map (fun (k : Nat) => some (exampleNow / nsPerDay - (k : Int)))
    ∧ (∀ e ∈ testSeries, (parseDecimal e.2.Close).isSome = true)
    ∧ testSeriesReversed.Perm testSeries
    ∧ (parseNDays parseDecimal exampleNow (windowOfDays 7) testSeriesReversed).2 = none
    ∧ (∀ k e, testSeries[k]? = some e →
        (parseNDays parseDecimal exampleNow (windowOfDays 7) testSeriesReversed).1.get? e.1
          = if k < 7 then parseDecimal e.2.Close else none)
    ∧ (∀ d v,
        (parseNDays parseDecimal exampleNow (windowOfDays 7) testSeriesReversed).1.get? d = some v →
        ∃ k e, k < 7 ∧ testSeries[k]? = some e ∧ e.1 = d)
    ∧ (parseNDays parseDecimal exampleNow (windowOfDays 7) testSeriesReversed).1.length = 7 :=
  ⟨by decide, by decide, by decide!, by decide,
    last_n_days_utc parseDecimal exampleNow 7 testSeries testSeriesReversed (by decide)
      (by decide) (by decide) (by decide!) (by decide)⟩

/-- The test of `parseNDays`, evaluated: at 2024-03-03 12:34:56 the nine-day
    series and the window of 7 days give the map the test expects and no error. -/
theorem parseNDays_test_case :
    parseNDays parseDecimal exampleNow (windowOfDays 7) testSeries = (testExpected, none) := by
  decide!

/-- C3, evaluated at the failing inputs: the nine-day series of the test, dated
    from today = 2024-03-03 back, and N = 7, where the test expects the 7 entries
    of `testExpected`.  At 2024-03-03 00:00:00 UTC exactly the entry of
    2024-02-25, dated 7 days ago, is kept: 8 entries.  At 2024-03-02 19:00 UTC,
    which is 2024-03-03 05:00 ten hours east of UTC, it is kept too: 8 entries.
    At 2024-03-04 04:00 UTC, which is 2024-03-03 20:00 eight hours west of UTC,
    the entry of 2024-02-26, dated 6 days ago, is dropped: 6 entries. -/
theorem C3_test_series_gives_eight_or_six :
    (testSeries.map (fun e => parseDay e.1)
        = (List.range testSeries.length).map
            (fun (k : Nat) => some (localDay 0 exampleMidnight - (k : Int)))
      ∧ (∀ e ∈ testSeries, (parseDecimal e.2.Close).isSome = true)
      ∧ parseNDays parseDecimal exampleMidnight (windowOfDays 7) testSeries
          = (testExpected ++ [("2024-02-25", 320)], none))
    ∧ (testSeries.map (fun e => parseDay e.1)
        = (List.range testSeries.length).map
            (fun (k : Nat) => some (localDay eastOffset exampleEastNow - (k : Int)))
      ∧ parseNDays parseDecimal exampleEastNow (windowOfDays 7) testSeries
          = (testExpected ++ [("2024-02-25", 320)], none))
    ∧ (testSeries.map (fun e => parseDay e.1)
        = (List.range testSeries.length).map
            (fun (k : Nat) => some (localDay westOffset exampleWestNow - (k : Int)))
      ∧ parseNDays parseDecimal exampleWestNow (windowOfDays 7) testSeries
          = (testExpected.take 6, none)) := by
  decide!

/-! ### The averager -/

theorem averageLoop_eq_fold {F : Type} (A : Arith F) (entries : List (String × F)) (total : F)
    (count : Nat) :
    averageLoop A entries total count
      = ((entries.map Prod.snd).foldl A.add total, count + entries.length) := by
  induction entries generalizing total count with
  | nil => simp [averageLoop]
  | cons e rest ih =>
    obtain ⟨k, c⟩ := e
    rw [averageLoop, ih]
    simp only [List.map_cons, List.foldl_cons, List.length_cons, Prod.mk.injEq, true_and]
    omega

theorem average_eq_fold {F : Type} (A : Arith F) (days : GoMap F) :
    calculateAverageClosingPrice A days
      = if 0 < days.length then
          A.div ((days.map Prod.snd).foldl A.add A.zero) (A.ofCount days.length)
        else A.zero := by
  unfold calculateAverageClosingPrice
  rw [averageLoop_eq_fold]
  simp

theorem exact_foldl_sum (qs : List ℚ) (t : ℚ) :
    qs.foldl exactArith.add t = t + qs.sum := by
  induction qs generalizing t with
  | nil => simp
  | cons q rest ih =>
    rw [List.foldl_cons, ih]
    simp only [exactArith, List.sum_cons]
    ring

theorem exact_average_eq (days : GoMap ℚ) :
    calculateAverageClosingPrice exactArith days
      = if 0 < days.length then (days.map Prod.snd).sum / (days.length : ℚ) else 0 := by
  rw [average_eq_fold, exact_foldl_sum]
  simp [exactArith]

theorem roundQ_of_isFloat64 (q : ℚ) (h : isFloat64 q = true) : roundQ q = .finite q := by
  unfold roundQ
  rw [if_pos h]

theorem float64_foldl_exact (qs : List ℚ) (t : ℚ)
    (h : ∀ k, k ≤ qs.length → isFloat64 (t + (qs.take k).sum) = true) :
    (qs.map Float64.finite).foldl Float64.add (.finite t) = .finite (t + qs.sum) := by
  induction qs generalizing t with
  | nil => simp
  | cons q rest ih =>
    have h1 : isFloat64 (t + q) = true := by
      have := h 1 (by simp)
      simpa using this
    have hstep : Float64.add (.finite t) (.finite q) = .finite (t + q) := by
      simp only [Float64.add]
      exact roundQ_of_isFloat64 _ h1
    rw [List.map_cons, List.foldl_cons, hstep, ih (t + q)]
    · simp only [List.sum_cons]
      congr 1
      ring
    · intro k hk
      have := h (k + 1) (by simpa using hk)
      simp only [List.take_succ_cons, List.sum_cons] at this
      rw [add_assoc]
      exact this

theorem float64_div_exact (s : ℚ) (n : Nat) (hn : 0 < n)
    (hcount : isFloat64 (n : ℚ) = true) (hq : isFloat64 (s / (n : ℚ)) = true) :
    Float64.div (.finite s) (Float64.ofCount n) = .finite (s / (n : ℚ)) := by
  have hn0 : (n : ℚ) ≠ 0 := by exact_mod_cast (Nat.pos_iff_ne_zero.mp hn)
  have hnn : ¬ ((n : ℚ) < 0) := by
    have : (0 : ℚ) ≤ (n : ℚ) := by exact_mod_cast Nat.zero_le n
    exact not_lt.mpr this
  unfold Float64.ofCount
  rw [roundQ_of_isFloat64 _ hcount]
  simp only [Float64.div, hn0, if_false]
  by_cases hs : s = 0
  · subst hs
    simp [Float64.signBit, Float64.zero, hnn]
  · rw [if_neg hs]
    exact roundQ_of_isFloat64 _ hq

/-- C4, as amended: in `float64`, `calculateAverageClosingPrice` returns exactly
    0.0 for the empty map and, for a non-empty map, the float64 quotient of the
    running float64 sum of the values (added in visiting order from 0.0) by
    `float64(count)`; that is the sum of the values divided by the number of
    entries whenever every partial sum, the count and the quotient are float64
    values, so that no operation rounds.  The result does not depend on the keys.
    Over exact arithmetic it is the sum divided by the count and does not depend
    on the order of the visit.  The map of the test gives 176, and 100 and 200
    give 150. -/
theorem C4_average (days : GoMap Float64) :
    (days = [] → calculateAverageClosingPrice float64Arith days = .finite 0)
    ∧ (days ≠ [] →
        calculateAverageClosingPrice float64Arith days
          = Float64.div ((days.map Prod.snd).foldl Float64.add (.finite 0))
              (Float64.ofCount days.length))
    ∧ (∀ qs : List ℚ, days.map Prod.snd = qs.map Float64.finite → qs ≠ [] →
        (∀ k, k ≤ qs.length → isFloat64 ((qs.take k).sum) = true) →
        isFloat64 (qs.length : ℚ) = true →
        isFloat64 (qs.sum / (qs.length : ℚ)) = true →
        calculateAverageClosingPrice float64Arith days = .finite (qs.sum / (qs.length : ℚ)))
    ∧ (∀ days' : GoMap Float64, days'.map Prod.snd = days.map Prod.snd →
        calculateAverageClosingPrice float64Arith days'
          = calculateAverageClosingPrice float64Arith days)
    ∧ (∀ exact exact' : GoMap ℚ,
        (exact ≠ [] →
          calculateAverageClosingPrice exactArith exact
            = (exact.map Prod.snd).sum / (exact.length : ℚ))
        ∧ ((exact'.map Prod.snd).Perm (exact.map Prod.snd) →
          calculateAverageClosingPrice exactArith exact'
            = calculateAverageClosingPrice exactArith exact))
    ∧ calculateAverageClosingPrice float64Arith
        [("2024-03-03", .finite 100), ("2024-03-02", .finite 200), ("2024-03-01", .finite 150),
         ("2024-02-29", .finite 180), ("2024-02-28", .finite 250)] = .finite 176
    ∧ calculateAverageClosingPrice float64Arith [("d1", .finite 100), ("d2", .finite 200)]
        = .finite 150 := by
  refine ⟨fun h => ?_, fun h => ?_, fun qs hqs hne hpre hcount hquot => ?_,
    fun days' hv => ?_, fun exact exact' => ⟨fun h => ?_, fun hp => ?_⟩, by decide!, by decide!⟩
  · subst h
    rfl
  · rw [average_eq_fold, if_pos (List.length_pos.mpr h)]
    rfl
  · have hlen : days.length = qs.length := by
      have := congrArg List.length hqs
      simpa using this
    have hpos : 0 < qs.length := List.length_pos.mpr hne
    rw [average_eq_fold, if_pos (by omega), hqs, hlen]
    have hfold : (qs.map Float64.finite).foldl float64Arith.add float64Arith.zero
        = .finite qs.sum := by
      have := float64_foldl_exact qs 0 (by intro k hk; simpa using hpre k hk)
      simpa [float64Arith] using this
    rw [hfold]
    exact float64_div_exact qs.sum qs.length hpos hcount hquot
  · have hlen : days'.length = days.length := by
      have := congrArg List.length hv
      simpa using this
    rw [average_eq_fold, average_eq_fold, hv, hlen]
  · rw [exact_average_eq, if_pos (List.length_pos.mpr h)]
  · have hlen : exact'.length = exact.length := by
      simpa using hp.length_eq
    rw [exact_average_eq, exact_average_eq, hp.sum_eq, hlen]

/-- C4 as stated fails in `float64`: for the values 1, 2, 2 the result is the
    float64 nearest to 5/3, which is not 5/3; for the values 1e16, 1, -1e16 the
    running sum rounds and the result is 0, not 1/3; and two values of
    1.7976931348623157e308 overflow to +Inf. -/
theorem C4_counterexample :
    calculateAverageClosingPrice float64Arith
        [("a", .finite 1), ("b", .finite 2), ("c", .finite 2)]
      = .finite (7505999378950827 / 4503599627370496)
    ∧ (7505999378950827 / 4503599627370496 : ℚ) ≠ (1 + 2 + 2) / 3
    ∧ calculateAverageClosingPrice float64Arith
        [("a", .finite 10000000000000000), ("b", .finite 1), ("c", .finite (-10000000000000000))]
      = .finite 0
    ∧ calculateAverageClosingPrice float64Arith
        [("a", .finite ((2 ^ 53 - 1) * 2 ^ 971)), ("b", .finite ((2 ^ 53 - 1) * 2 ^ 971))]
      = .inf false := by
  decide!

/-! ### The handler -/

theorem readAndRespond_length {F : Type} (A : Arith F) (pf : String → Option F)
    (now nDays : Int) (resp : UpstreamResponse) :
    (readAndRespond A pf now nDays resp).length = 1 := by
  unfold readAndRespond
  cases resp.body with
  | unreadable => rfl
  | undecodable err => rfl
  | decoded ts =>
    simp only
    cases h : parseNDays pf now nDays ts with
    | mk days err => cases err <;> rfl

theorem getStockData_missing_url {F : Type} (A : Arith F) (getenv : String → String)
    (httpGet : String → Option UpstreamResponse) (pf : String → Option F) (now : Int)
    (h : getenv "ALPHA_VANTAGE_URL" = "") :
    getStockData A getenv httpGet pf now
      = [⟨400, .errorResponse ⟨"ALPHA_VANTAGE_URL environment variable is not set"⟩⟩] := by
  simp [getStockData, h]

theorem getStockData_missing_symbol {F : Type} (A : Arith F) (getenv : String → String)
    (httpGet : String → Option UpstreamResponse) (pf : String → Option F) (now : Int)
    (hurl : getenv "ALPHA_VANTAGE_URL" ≠ "") (h : getenv "SYMBOL" = "") :
    getStockData A getenv httpGet pf now
      = [⟨400, .errorResponse ⟨"SYMBOL environment variable is not set"⟩⟩] := by
  simp [getStockData, hurl, h]

theorem getStockData_missing_ndays {F : Type} (A : Arith F) (getenv : String → String)
    (httpGet : String → Option UpstreamResponse) (pf : String → Option F) (now : Int)
    (hurl : getenv "ALPHA_VANTAGE_URL" ≠ "") (hsym : getenv "SYMBOL" ≠ "")
    (h : getenv "NDAYS" = "") :
    getStockData A getenv httpGet pf now
      = [⟨400, .errorResponse ⟨"NDAYS environment variable is not set"⟩⟩] := by
  simp [getStockData, hurl, hsym, h]

/-- With the first three variables set and a day count the handler accepts, the
    handler reaches `http.Get`; what it writes from there on. -/
theorem getStockData_after_config {F : Type} (A : Arith F) (getenv : String → String)
    (httpGet : String → Option UpstreamResponse) (pf : String → Option F) (now : Int)
    (nDaysInt nDays : Int)
    (hurl : getenv "ALPHA_VANTAGE_URL" ≠ "") (hsym : getenv "SYMBOL" ≠ "")
    (hnd : getenv "NDAYS" ≠ "") (hatoi : strconvAtoi (getenv "NDAYS") = .ok nDaysInt)
    (hdur : nDaysDuration nDaysInt = .ok nDays) :
    getStockData A getenv httpGet pf now
      = (if getenv "API_KEY" = "" then
            [⟨400, .errorResponse ⟨"API_KEY environment variable not set"⟩⟩]
          else [])
        ++ (match httpGet (getenv "ALPHA_VANTAGE_URL" ++ "/query?apikey=" ++ getenv "API_KEY"
              ++ "&function=TIME_SERIES_DAILY&symbol=" ++ getenv "SYMBOL") with
            | none => [⟨500, .errorResponse ⟨"Failed to retrieve stock quote"⟩⟩]
            | some resp =>
              (if resp.StatusCode ≠ 200 then
                  [⟨500, .errorResponse ⟨"Wrong status code received. Expected: 200, Got: "
                    ++ toString resp.StatusCode⟩⟩]
                else [])
              ++ readAndRespond A pf now nDays resp ++ deferredClose resp) := by
  simp only [getStockData, hurl, hsym, hnd, hatoi, hdur, if_false]
  cases httpGet (getenv "ALPHA_VANTAGE_URL" ++ "/query?apikey=" ++ getenv "API_KEY"
      ++ "&function=TIME_SERIES_DAILY&symbol=" ++ getenv "SYMBOL") with
  | none => rfl
  | some resp => simp [List.append_assoc]

/-- Every upstream reply whose status is not 200 makes the handler call `c.JSON`
    at least twice. -/
theorem getStockData_non200_writes_twice {F : Type} (A : Arith F) (getenv : String → String)
    (httpGet : String → Option UpstreamResponse) (pf : String → Option F) (now : Int)
    (nDaysInt nDays : Int) (resp : UpstreamResponse)
    (hurl : getenv "ALPHA_VANTAGE_URL" ≠ "") (hsym : getenv "SYMBOL" ≠ "")
    (hnd : getenv "NDAYS" ≠ "") (hatoi : strconvAtoi (getenv "NDAYS") = .ok nDaysInt)
    (hdur : nDaysDuration nDaysInt = .ok nDays)
    (hget : httpGet (getenv "ALPHA_VANTAGE_URL" ++ "/query?apikey=" ++ getenv "API_KEY"
              ++ "&function=TIME_SERIES_DAILY&symbol=" ++ getenv "SYMBOL") = some resp)
    (hstatus : resp.StatusCode ≠ 200) :
    2 ≤ (getStockData A getenv httpGet pf now).length := by
  rw [getStockData_after_config A getenv httpGet pf now nDaysInt nDays hurl hsym hnd hatoi hdur,
    hget]
  simp only [hstatus, ne_eq, not_false_eq_true, if_true, List.length_append,
    readAndRespond_length, List.length_cons, List.length_nil]
  omega

/-- With `API_KEY` unset and the rest of the configuration accepted, the handler
    writes the 400 error object first and at least one more object after it. -/
theorem getStockData_missing_key_writes_twice {F : Type} (A : Arith F) (getenv : String → String)
    (httpGet : String → Option UpstreamResponse) (pf : String → Option F) (now : Int)
    (nDaysInt nDays : Int)
    (hurl : getenv "ALPHA_VANTAGE_URL" ≠ "") (hsym : getenv "SYMBOL" ≠ "")
    (hnd : getenv "NDAYS" ≠ "") (hatoi : strconvAtoi (getenv "NDAYS") = .ok nDaysInt)
    (hdur : nDaysDuration nDaysInt = .ok nDays)
    (hkey : getenv "API_KEY" = "") :
    responseStatus (getStockData A getenv httpGet pf now) = some 400
    ∧ 2 ≤ (getStockData A getenv httpGet pf now).length := by
  rw [getStockData_after_config A getenv httpGet pf now nDaysInt nDays hurl hsym hnd hatoi hdur]
  simp only [hkey, if_true]
  constructor
  · rfl
  · cases httpGet (getenv "ALPHA_VANTAGE_URL" ++ "/query?apikey=" ++ ""
      ++ "&function=TIME_SERIES_DAILY&symbol=" ++ getenv "SYMBOL") with
    | none => simp
    | some resp =>
      simp only [List.length_append, readAndRespond_length, List.length_cons, List.length_nil]
      omega

/-- The end-to-end test, evaluated in `float64` at 2024-03-03 12:34:56 UTC: one
    write, status 200, seven days and the average 160. -/
theorem getStockData_end_to_end :
    getStockData float64Arith testEnv
        (fun url =>
          if url = "http://127.0.0.1:8081/query?apikey=o2837weuhfkhasdk&function=TIME_SERIES_DAILY&symbol=MSFT"
          then some mockReply else some invalidRequestReply)
        parseFloat64 exampleNow
      = [⟨200, .stockData
          ⟨[("2024-03-03", .finite 100), ("2024-03-02", .finite 120), ("2024-03-01", .finite 140),
            ("2024-02-29", .finite 160), ("2024-02-28", .finite 180), ("2024-02-27", .finite 200),
            ("2024-02-26", .finite 220)], .finite 160⟩⟩] := by
  decide!

/-- C7, evaluated at the failing input: with the configuration of the test
    and an upstream reply of status 400 whose body decodes, `getStockData` calls
    `c.JSON` twice, since the branch of the status check does not return: the
    caller gets status 500, the error object, and after it a success object with
    no days and average 0. -/
theorem C7_non200_then_success {F : Type} (A : Arith F) (pf : String → Option F) (now : Int) :
    getStockData A testEnv (fun _ => some invalidRequestReply) pf now
      = [⟨500, .errorResponse ⟨"Wrong status code received. Expected: 200, Got: 400"⟩⟩,
         ⟨200, .stockData ⟨[], A.zero⟩⟩]
    ∧ responseStatus (getStockData A testEnv (fun _ => some invalidRequestReply) pf now)
      = some 500
    ∧ (responseBodies (getStockData A testEnv (fun _ => some invalidRequestReply) pf now)).length
      = 2 := by
  have h : getStockData A testEnv (fun _ => some invalidRequestReply) pf now
      = [⟨500, .errorResponse ⟨"Wrong status code received. Expected: 200, Got: 400"⟩⟩,
         ⟨200, .stockData ⟨[], A.zero⟩⟩] := by
    rfl
  rw [h]
  exact ⟨rfl, rfl, rfl⟩

/-- C8, evaluated at the failing input: with `API_KEY` unset and the other three
    variables set, `getStockData` writes the 400 error object and goes on, since
    the branch of the check does not return: it sends the request with an empty
    key and, on the mock server's 400 reply, writes two more objects. -/
theorem C8_missing_api_key_goes_on {F : Type} (A : Arith F) (pf : String → Option F) (now : Int) :
    getStockData A noKeyEnv (fun _ => some invalidRequestReply) pf now
      = [⟨400, .errorResponse ⟨"API_KEY environment variable not set"⟩⟩,
         ⟨500, .errorResponse ⟨"Wrong status code received. Expected: 200, Got: 400"⟩⟩,
         ⟨200, .stockData ⟨[], A.zero⟩⟩]
    ∧ responseStatus (getStockData A noKeyEnv (fun _ => some invalidRequestReply) pf now)
      = some 400
    ∧ (responseBodies (getStockData A noKeyEnv (fun _ => some invalidRequestReply) pf now)).length
      = 3
    ∧ getStockData A noKeyEnv (fun _ => none) pf now
      = [⟨400, .errorResponse ⟨"API_KEY environment variable not set"⟩⟩,
         ⟨500, .errorResponse ⟨"Failed to retrieve stock quote"⟩⟩] := by
  have h : getStockData A noKeyEnv (fun _ => some invalidRequestReply) pf now
      = [⟨400, .errorResponse ⟨"API_KEY environment variable not set"⟩⟩,
         ⟨500, .errorResponse ⟨"Wrong status code received. Expected: 200, Got: 400"⟩⟩,
         ⟨200, .stockData ⟨[], A.zero⟩⟩] := by
    rfl
  rw [h]
  exact ⟨rfl, rfl, rfl, rfl⟩

end StockPicker
